import Mathlib

/-!
Shallow embedding of the funmon-be backend (Go) for specification checking.

The repository is a small HTTP service that scans a Gmail mailbox for
transaction-like emails, extracts an amount and a date per message with
regular expressions, aggregates the transactions into period summaries and
caches responses in Redis.  Machine floating point amounts are embedded as
rationals (ℚ); Go `time.Time` values that arise here are calendar dates
parsed with layout "2006-01-02", embedded as year/month/day triples.
-/

namespace FunMon

/-! ## Characters and digits -/

/-- The decimal digit character for `k` (meaningful for `k < 10`). -/
def digitChar (k : ℕ) : Char := Char.ofNat (48 + k)

/-- Numeric value of a decimal digit character. -/
def digitVal (c : Char) : ℕ := c.toNat - 48

/-! ## Calendar dates (Go `time.Time` restricted to dates)

`time.Parse("2006-01-02", s)` yields a date at midnight UTC; the program
only ever compares, formats and shifts such dates, so a year/month/day
triple is a faithful embedding.  The Go zero `time.Time` is January 1 of
year 1. -/

structure Date where
  y : ℕ
  m : ℕ
  d : ℕ
deriving DecidableEq, Repr

/-- Go's zero `time.Time` as a date: 0001-01-01. -/
def zeroDate : Date := ⟨1, 1, 1⟩

/-- Chronological ordering of dates; on the valid dates produced by
`parseDate` this coincides with Go's `time.Time.After`/`Before`. -/
def dateLt (a b : Date) : Prop :=
  a.y < b.y ∨ (a.y = b.y ∧ (a.m < b.m ∨ (a.m = b.m ∧ a.d < b.d)))

instance (a b : Date) : Decidable (dateLt a b) := by
  unfold dateLt; infer_instance

/-- Go `isLeap` (proleptic Gregorian), as used by `time`. -/
def isLeap (y : ℕ) : Bool := y % 4 == 0 && (y % 100 != 0 || y % 400 == 0)

/-- Days in a month, as Go's `time.daysIn`. -/
def daysInMonth (y m : ℕ) : ℕ :=
  if m = 2 then (if isLeap y then 29 else 28)
  else if m = 4 ∨ m = 6 ∨ m = 9 ∨ m = 11 then 30
  else 31

/-- Go `time.Parse("2006-01-02", s)`: exactly four year digits, a dash,
two month digits, a dash, two day digits; the month must be 1..12 and the
day within the month, otherwise Parse reports "month/day out of range". -/
def parseDate (s : String) : Option Date :=
  match s.data with
  | [y1, y2, y3, y4, h1, m1, m2, h2, d1, d2] =>
    if y1.isDigit && y2.isDigit && y3.isDigit && y4.isDigit &&
       h1 == '-' && m1.isDigit && m2.isDigit &&
       h2 == '-' && d1.isDigit && d2.isDigit then
      let y := ((digitVal y1 * 10 + digitVal y2) * 10 + digitVal y3) * 10 + digitVal y4
      let m := digitVal m1 * 10 + digitVal m2
      let d := digitVal d1 * 10 + digitVal d2
      if 1 ≤ m && m ≤ 12 && 1 ≤ d && d ≤ daysInMonth y m then
        some ⟨y, m, d⟩
      else none
    else none
  | _ => none

/-- Four zero-padded decimal digits (Go `Format` year field "2006" for
years 0..9999, the only years `parseDate` can produce). -/
def digits4 (n : ℕ) : List Char :=
  [digitChar (n / 1000 % 10), digitChar (n / 100 % 10),
   digitChar (n / 10 % 10), digitChar (n % 10)]

/-- Two zero-padded decimal digits (Go `Format` fields "01" / "02"). -/
def digits2 (n : ℕ) : List Char :=
  [digitChar (n / 10 % 10), digitChar (n % 10)]

/-- Go `t.Format("2006-01-02")`. -/
def formatDate (dt : Date) : String :=
  String.mk (digits4 dt.y ++ '-' :: digits2 dt.m ++ '-' :: digits2 dt.d)

/-- Go `t.Format("2006-01")`, the month key of the monthly summary. -/
def formatYM (dt : Date) : String :=
  String.mk (digits4 dt.y ++ '-' :: digits2 dt.m)

/-- Go `t.AddDate(0, 0, -1)`: the calendar day before `dt`.  (For the
unreachable corner `dt = ⟨0,1,1⟩` Go would move to year −1; dates here
are only ever shifted after being produced by `parseDate` and compared
strictly above `zeroDate`, so natural subtraction is faithful.) -/
def prevDay (dt : Date) : Date :=
  if 1 < dt.d then ⟨dt.y, dt.m, dt.d - 1⟩
  else if 1 < dt.m then ⟨dt.y, dt.m - 1, daysInMonth dt.y (dt.m - 1)⟩
  else ⟨dt.y - 1, 12, 31⟩

/-- Go `t.AddDate(0, 0, -i)`: step back `i` calendar days. -/
def subDays (dt : Date) : ℕ → Date
  | 0 => dt
  | n + 1 => prevDay (subDays dt n)

/-! ## Transactions and summaries -/

/-- `types.Transaction` (README `package types`): date string, amount,
description.  The float64 amount is embedded as a rational. -/
structure Transaction where
  date : String
  amount : ℚ
  description : String
deriving DecidableEq, Repr

/-- `Summary` from `main.go`. -/
structure Summary where
  total : ℚ
  previously : ℚ
  changePercentage : ℚ
deriving DecidableEq, Repr

/-! ## Go map with float accumulation

`dateTotals[k] += v` on a `map[string]float64`, embedded as an association
list in key first-insertion order (iteration order is irrelevant: the map
is only read back by key, and its key set is sorted before use). -/

/-- `m[k] += v` (inserting `k` with `v` when absent). -/
def addTo : List (String × ℚ) → String → ℚ → List (String × ℚ)
  | [], k, v => [(k, v)]
  | (k', v') :: rest, k, v =>
    if k' = k then (k', v' + v) :: rest else (k', v') :: addTo rest k v

/-- `m[k]` with the Go zero value 0 for an absent key. -/
def lookupD : List (String × ℚ) → String → ℚ
  | [], _ => 0
  | (k', v) :: rest, k => if k' = k then v else lookupD rest k

/-! ## String ordering (`sort.Strings`)

Go sorts the month keys bytewise.  The keys are ASCII (digits and a dash),
where bytewise and character-lexicographic order agree, so the sort
relation is embedded as executable lexicographic order on the character
lists. -/

/-- Lexicographic "less or equal" on character lists, by code point. -/
def strLeB : List Char → List Char → Bool
  | [], _ => true
  | _ :: _, [] => false
  | a :: as, b :: bs =>
    if a.toNat < b.toNat then true
    else if b.toNat < a.toNat then false
    else strLeB as bs

/-- Lexicographic order on strings (Go `sort.Strings` order on the ASCII
strings occurring here). -/
def strLe (a b : String) : Prop := strLeB a.data b.data = true

instance (a b : String) : Decidable (strLe a b) := by
  unfold strLe; infer_instance

theorem strLeB_total : ∀ as bs, strLeB as bs = true ∨ strLeB bs as = true := by
  intro as
  induction as with
  | nil => intro bs; left; rfl
  | cons a as ih =>
    intro bs
    cases bs with
    | nil => right; rfl
    | cons b bs =>
      by_cases h1 : a.toNat < b.toNat
      · left; simp [strLeB, h1]
      · by_cases h2 : b.toNat < a.toNat
        · right; simp [strLeB, h2]
        · rcases ih bs with h | h
          · left; simp [strLeB, h1, h2, h]
          · right; simp [strLeB, h1, h2, h]

theorem strLeB_trans : ∀ as bs cs, strLeB as bs = true → strLeB bs cs = true →
    strLeB as cs = true := by
  intro as
  induction as with
  | nil => intro bs cs _ _; rfl
  | cons a as ih =>
    intro bs cs h1 h2
    cases bs with
    | nil => simp [strLeB] at h1
    | cons b bs =>
      cases cs with
      | nil => simp [strLeB] at h2
      | cons c cs =>
        by_cases hac : a.toNat < c.toNat
        · simp [strLeB, hac]
        · by_cases hca : c.toNat < a.toNat
          · exfalso
            by_cases hab : a.toNat < b.toNat
            · by_cases hbc : b.toNat < c.toNat
              · omega
              · by_cases hcb : c.toNat < b.toNat
                · simp [strLeB, hbc, hcb] at h2
                · omega
            · by_cases hba : b.toNat < a.toNat
              · simp [strLeB, hab, hba] at h1
              · have hbc : ¬ b.toNat < c.toNat := by omega
                have hcb : c.toNat < b.toNat := by omega
                simp [strLeB, hbc, hcb] at h2
          · have g : strLeB (a :: as) (c :: cs) = strLeB as cs := by
              simp [strLeB, hac, hca]
            rw [g]
            by_cases hab : a.toNat < b.toNat
            · by_cases hbc : b.toNat < c.toNat
              · omega
              · by_cases hcb : c.toNat < b.toNat
                · simp [strLeB, hbc, hcb] at h2
                · omega
            · by_cases hba : b.toNat < a.toNat
              · simp [strLeB, hab, hba] at h1
              · have hbc : ¬ b.toNat < c.toNat := by omega
                have hcb : ¬ c.toNat < b.toNat := by omega
                simp [strLeB, hab, hba] at h1
                simp [strLeB, hbc, hcb] at h2
                exact ih bs cs h1 h2

theorem strLeB_antisymm : ∀ as bs, strLeB as bs = true → strLeB bs as = true →
    as = bs := by
  intro as
  induction as with
  | nil =>
    intro bs _ h2
    cases bs with
    | nil => rfl
    | cons b bs => simp [strLeB] at h2
  | cons a as ih =>
    intro bs h1 h2
    cases bs with
    | nil => simp [strLeB] at h1
    | cons b bs =>
      simp only [strLeB] at h1 h2
      by_cases hab : a.toNat < b.toNat
      · have : ¬ b.toNat < a.toNat := by omega
        simp [hab, this] at h2
      · by_cases hba : b.toNat < a.toNat
        · simp [hab, hba] at h1
        · have hn : a.toNat = b.toNat := by omega
          have hc : a = b := Char.ext (UInt32.ext hn)
          simp [hab, hba] at h1 h2
          rw [hc, ih bs h1 h2]

instance : IsTotal String strLe := ⟨fun a b => strLeB_total a.data b.data⟩

instance : IsTrans String strLe :=
  ⟨fun a b c h1 h2 => strLeB_trans a.data b.data c.data h1 h2⟩

instance : IsAntisymm String strLe :=
  ⟨fun a b h1 h2 => String.ext (strLeB_antisymm a.data b.data h1 h2)⟩

/-! ## calculateSummary (`main.go`) -/

/-- The `"daily"` arm of `calculateSummary`: one pass accumulating
per-raw-date totals (keyed by the transaction's own date string) and the
maximum parsed date; error when no date parsed (`maxDate.IsZero()`). -/
def calcDaily (transactions : List Transaction) : Except String Summary :=
  let st := transactions.foldl
    (fun (acc : List (String × ℚ) × Date) txn =>
      match parseDate txn.date with
      | none => acc
      | some t =>
        (addTo acc.1 txn.date txn.amount,
         if dateLt acc.2 t then t else acc.2))
    ([], zeroDate)
  if st.2 = zeroDate then .error "no valid transaction dates found"
  else
    let currentDay := formatDate st.2
    let previousDay := formatDate (prevDay st.2)
    let currentTotal := lookupD st.1 currentDay
    let previousTotal := lookupD st.1 previousDay
    let change : ℚ :=
      if previousTotal ≠ 0 then (currentTotal - previousTotal) / previousTotal * 100
      else 0
    .ok ⟨currentTotal, previousTotal, change⟩

/-- The `"weekly"` arm: totals keyed by the reformatted parsed date, then
the 7 days ending at the maximum versus the 7 days before them. -/
def calcWeekly (transactions : List Transaction) : Except String Summary :=
  let st := transactions.foldl
    (fun (acc : List (String × ℚ) × Date) txn =>
      match parseDate txn.date with
      | none => acc
      | some t =>
        (addTo acc.1 (formatDate t) txn.amount,
         if dateLt acc.2 t then t else acc.2))
    ([], zeroDate)
  if st.2 = zeroDate then .error "no valid transaction dates found"
  else
    let totals := (List.range 14).foldl
      (fun (p : ℚ × ℚ) i =>
        let amount := lookupD st.1 (formatDate (subDays st.2 i))
        if i < 7 then (p.1 + amount, p.2) else (p.1, p.2 + amount))
      (0, 0)
    let change : ℚ :=
      if totals.2 ≠ 0 then (totals.1 - totals.2) / totals.2 * 100 else 0
    .ok ⟨totals.1, totals.2, change⟩

/-- The `"monthly"` arm: totals keyed by `t.Format("2006-01")`, keys
sorted with `sort.Strings`, last versus second-to-last key. -/
def calcMonthly (transactions : List Transaction) : Except String Summary :=
  let monthTotals := transactions.foldl
    (fun acc txn =>
      match parseDate txn.date with
      | none => acc
      | some t => addTo acc (formatYM t) txn.amount)
    []
  let months := monthTotals.map Prod.fst
  if months = [] then .error "no valid transaction months found"
  else
    let sorted := months.insertionSort strLe
    let currentMonth := sorted.getD (sorted.length - 1) ""
    let previousMonth :=
      if 2 ≤ sorted.length then sorted.getD (sorted.length - 2) "" else ""
    let currentTotal := lookupD monthTotals currentMonth
    let previousTotal := if previousMonth ≠ "" then lookupD monthTotals previousMonth else 0
    let change : ℚ :=
      if previousTotal ≠ 0 then (currentTotal - previousTotal) / previousTotal * 100
      else 0
    .ok ⟨currentTotal, previousTotal, change⟩

/-- The `default` arm: plain sum, `Previously` left at its zero value. -/
def calcDefault (transactions : List Transaction) : Except String Summary :=
  let total := transactions.foldl (fun acc t => acc + t.amount) 0
  .ok ⟨total, 0, 0⟩

/-- `calculateSummary` from `main.go`: dispatch on the period keyword. -/
def calculateSummary (transactions : List Transaction) (period : String) :
    Except String Summary :=
  if period = "daily" then calcDaily transactions
  else if period = "weekly" then calcWeekly transactions
  else if period = "monthly" then calcMonthly transactions
  else calcDefault transactions

/-! ## base64url decoding (`encoding/base64.URLEncoding.DecodeString`)

The URL-safe alphabet with mandatory `=` padding; an input whose length is
not a multiple of four, that contains a character outside the alphabet or
misplaced padding, is rejected.  (Go additionally skips embedded newlines
and, in the default non-strict mode, ignores non-zero trailing padding
bits; neither arises for the bodies modelled here.) -/

/-- Value of one character of the URL-safe base64 alphabet. -/
def b64Val (c : Char) : Option ℕ :=
  if 'A' ≤ c ∧ c ≤ 'Z' then some (c.toNat - 65)
  else if 'a' ≤ c ∧ c ≤ 'z' then some (c.toNat - 97 + 26)
  else if '0' ≤ c ∧ c ≤ '9' then some (c.toNat - 48 + 52)
  else if c = '-' then some 62
  else if c = '_' then some 63
  else none

/-- Decode padded base64 four characters at a time into bytes. -/
def b64Groups : List Char → Option (List ℕ)
  | [] => some []
  | a :: b :: c :: d :: rest =>
    match b64Val a, b64Val b with
    | some va, some vb =>
      if c = '=' then
        if d = '=' ∧ rest = [] then some [va * 4 + vb / 16] else none
      else
        match b64Val c with
        | some vc =>
          if d = '=' then
            if rest = [] then some [va * 4 + vb / 16, vb % 16 * 16 + vc / 4]
            else none
          else
            match b64Val d with
            | some vd =>
              (b64Groups rest).map
                (fun bs => (va * 4 + vb / 16) :: (vb % 16 * 16 + vc / 4) ::
                           (vc % 4 * 64 + vd) :: bs)
            | none => none
        | none => none
    | _, _ => none
  | _ => none

/-- `base64.URLEncoding.DecodeString` followed by Go's `string(data)`
byte-to-string view (the decoded bodies here are ASCII). -/
def decodeB64Url (s : String) : Option String :=
  (b64Groups s.data).map (fun bs => String.mk (bs.map Char.ofNat))

/-! ## MIME part trees (`gmail.MessagePart`) -/

/-- A `gmail.MessagePart`: a media type, an optional body (`none` embeds a
nil `Body` pointer; the contained string is `Body.Data`), and child parts. -/
inductive MessagePart where
  | mk (mimeType : String) (body : Option String) (parts : List MessagePart)

/-- The base64url-decoded body of this node when its media type and body
make it eligible, mirroring one of the two guarded decode attempts of
`extractMessageContent` (`Body != nil && Body.Data != ""`). -/
def tryDecode (want mime : String) (body : Option String) : Option String :=
  if mime = want then
    match body with
    | some data => if data ≠ "" then decodeB64Url data else none
    | none => none
  else none

mutual

/-- `extractMessageContent` from `services/gmail.go`: try the current
node as `text/plain`, then as `text/html`, then recurse into the child
parts in order, returning the first non-empty result, else `""`. -/
def extractMessageContent : MessagePart → String
  | .mk mime body parts =>
    match tryDecode "text/plain" mime body with
    | some s => s
    | none =>
      match tryDecode "text/html" mime body with
      | some s => s
      | none => extractFromParts parts

/-- The `for _, nestedPart := range part.Parts` loop. -/
def extractFromParts : List MessagePart → String
  | [] => ""
  | p :: ps =>
    let content := extractMessageContent p
    if content ≠ "" then content else extractFromParts ps

end

/-! ## stripHTMLTags (`services/gmail.go`)

The Go function parses with `golang.org/x/net/html` (which succeeds on
any string input, so the fallback branch is dead) and concatenates the
text-node data in document order.  For the markup arising here — plain
text and simple element tags, no entities, scripts or comments — that is
exactly "drop every `<...>` run, keep the rest", which is how the external
parser's text extraction is modelled. -/

/-- Text-node concatenation: drop tag runs, keep text. -/
def stripAux : List Char → Bool → List Char
  | [], _ => []
  | c :: cs, inTag =>
    if inTag then
      if c = '>' then stripAux cs false else stripAux cs true
    else
      if c = '<' then stripAux cs true else c :: stripAux cs false

/-- Model of `stripHTMLTags` (text nodes of the parsed document, in
document order). -/
def stripHTMLTags (htmlContent : String) : String :=
  String.mk (stripAux htmlContent.data false)

/-! ## The two extraction regexes

`regexp.MustCompile` with Go (RE2/leftmost) semantics, specialised to the
two fixed patterns.  Both patterns are deterministic at a given start
position (greedy runs over character classes disjoint from what follows),
so a direct left-to-right scan is an exact embedding. -/

/-- Go regexp `\s` (Perl class): `[\t\n\f\r ]`. -/
def isGoSpace (c : Char) : Bool :=
  c = ' ' ∨ c = '\t' ∨ c = '\n' ∨ c = '\x0c' ∨ c = '\r'

/-- `[0-9,.]`. -/
def isAmountChar (c : Char) : Bool := c.isDigit ∨ c = ',' ∨ c = '.'

/-- Match `(?i)Rs.\s*\$?([0-9,.]+)` anchored at the start of `cs`,
returning the capture group.  `.` matches any character except newline. -/
def amountAt : List Char → Option String
  | c0 :: c1 :: c2 :: rest =>
    if (c0 = 'R' ∨ c0 = 'r') ∧ (c1 = 'S' ∨ c1 = 's') ∧ c2 ≠ '\n' then
      let afterSpace := rest.dropWhile isGoSpace
      let afterDollar :=
        match afterSpace with
        | '$' :: tl => tl
        | l => l
      let digits := afterDollar.takeWhile isAmountChar
      if digits ≠ [] then some (String.mk digits) else none
    else none
  | _ => none

/-- `amountPattern.FindStringSubmatch`: first (leftmost) match of the
amount pattern, returning the capture group. -/
def findAmount : List Char → Option String
  | [] => none
  | c :: cs =>
    match amountAt (c :: cs) with
    | some r => some r
    | none => findAmount cs

/-- Match `on\s+(\d{2}-\d{2}-\d{2})` anchored at the start of `cs`,
returning the capture group. -/
def dateAt : List Char → Option String
  | 'o' :: 'n' :: rest =>
    let sp := rest.takeWhile isGoSpace
    if sp ≠ [] then
      match rest.dropWhile isGoSpace with
      | a :: b :: h1 :: c :: d :: h2 :: e :: f :: _ =>
        if a.isDigit ∧ b.isDigit ∧ h1 = '-' ∧ c.isDigit ∧ d.isDigit ∧
           h2 = '-' ∧ e.isDigit ∧ f.isDigit then
          some (String.mk [a, b, h1, c, d, h2, e, f])
        else none
      | _ => none
    else none
  | _ => none

/-- `datePattern.FindStringSubmatch`: first match of the date pattern,
returning the capture group. -/
def findDate : List Char → Option String
  | [] => none
  | c :: cs =>
    match dateAt (c :: cs) with
    | some r => some r
    | none => findDate cs

/-! ## Numeric and date field parsing -/

/-- `strings.ReplaceAll(s, ",", "")`. -/
def removeCommas (s : String) : String :=
  String.mk (s.data.filter (fun c => c ≠ ','))

/-- `strconv.ParseFloat` on the strings reachable here (digits and dots
after comma removal): at most one dot and at least one digit; the value is
exact as a rational (the claims' amounts are exactly representable in
float64 as well). -/
def parseFloatGo (s : String) : Option ℚ :=
  let cs := s.data
  if cs.all (fun c => c.isDigit ∨ c = '.') ∧ cs.any Char.isDigit ∧
     (cs.filter (fun c => c = '.')).length ≤ 1 then
    let intPart := cs.takeWhile Char.isDigit
    let fracPart := (cs.dropWhile Char.isDigit).drop 1
    let iv : ℕ := intPart.foldl (fun a c => a * 10 + digitVal c) 0
    let fv : ℕ := fracPart.foldl (fun a c => a * 10 + digitVal c) 0
    some ((iv : ℚ) + (fv : ℚ) / (10 : ℚ) ^ fracPart.length)
  else none

/-- `time.Parse("02-01-06", s)` on an eight-character `DD-MM-YY` token:
two-digit years below 69 land in 2000–2068, the rest in 1969–1999, and
month/day ranges are validated. -/
def parseDDMMYY (s : String) : Option Date :=
  match s.data with
  | [d1, d2, h1, m1, m2, h2, y1, y2] =>
    if d1.isDigit && d2.isDigit && h1 == '-' && m1.isDigit && m2.isDigit &&
       h2 == '-' && y1.isDigit && y2.isDigit then
      let d := digitVal d1 * 10 + digitVal d2
      let m := digitVal m1 * 10 + digitVal m2
      let yy := digitVal y1 * 10 + digitVal y2
      let y := if yy < 69 then 2000 + yy else 1900 + yy
      if 1 ≤ m && m ≤ 12 && 1 ≤ d && d ≤ daysInMonth y m then
        some ⟨y, m, d⟩
      else none
    else none
  | _ => none

/-! ## parseTransactionEmail and the fetch loop (`services/gmail.go`) -/

/-- A fetched Gmail message, reduced to the payload tree the parser reads. -/
structure GmailMessage where
  payload : MessagePart

/-- `parseTransactionEmail`: extract content, strip markup, run the two
patterns (both must match), strip thousands separators, parse the number
and the `DD-MM-YY` date, and build the transaction with its fixed
description. -/
def parseTransactionEmail (msg : GmailMessage) : Except String Transaction :=
  let body := extractMessageContent msg.payload
  if body = "" then .error "no suitable content found in email"
  else
    let stripped := stripHTMLTags body
    match findAmount stripped.data, findDate stripped.data with
    | some amountMatch, some dateMatch =>
      let amountStr := removeCommas amountMatch
      match parseFloatGo amountStr with
      | none => .error "could not parse amount"
      | some amount =>
        match parseDDMMYY dateMatch with
        | none => .error "could not parse date"
        | some parsedDate =>
          .ok ⟨formatDate parsedDate, amount, "Transaction from HTML email"⟩
    | _, _ => .error "could not parse transaction details"

/-- The accumulation loop of `FetchTransactions` over the messages the
provider returned: a message whose parse fails is logged and skipped, the
rest are appended in order, and no error is ever returned. -/
def fetchLoop (msgs : List GmailMessage) : List Transaction :=
  msgs.foldl
    (fun acc msg =>
      match parseTransactionEmail msg with
      | .error _ => acc
      | .ok t => acc ++ [t])
    []

/-! ## The `/transactions` handler (`main.go`)

The handler is embedded as a pure function of the request data and of the
ambient effects it consumes: the Redis read (`cacheGet`), JSON
deserialization and serialization (`unmarshal` / `marshal`, parameters
because `encoding/json` lives outside this repository; `json.Marshal`
cannot fail on these struct types, so `marshal` is total and the dead
logging branch is dropped), Gmail service construction (`svcError`), and
the provider fetch.  The outcome records the HTTP status, the response
body, every `FetchTransactions` call made, and the Redis write if any.
`json.NewEncoder(w).Encode(v)` writes `json.Marshal(v)` followed by a
newline character. -/

/-- `TransactionsResponse` from `main.go`. -/
structure TransactionsResponse where
  summary : Summary
  details : List Transaction
deriving DecidableEq

/-- A response body: none (preflight), a JSON payload, or the
`respondError` JSON `{error, code}` object. -/
inductive RespBody where
  | empty
  | payload (bytes : String)
  | err (message : String) (code : ℕ)
deriving DecidableEq

/-- What one request produced: status, body, the `days` argument of each
provider fetch performed, and the cache write if one happened. -/
structure HandlerOutcome where
  status : ℕ
  body : RespBody
  fetchCalls : List ℕ
  cacheSet : Option (String × String)
deriving DecidableEq

/-- `services.AppError` versus any other error from `FetchTransactions`. -/
inductive FetchError where
  | app (code : ℕ) (msg : String)
  | generic (msg : String)

/-- `getCacheKey` from `main.go`. -/
def getCacheKey (filter : String) : String := "transactions:" ++ filter

/-- `strings.TrimSpace(s) == ""`: every character is Unicode white space
(the ASCII space class plus NEL and NBSP; other Unicode spaces do not
arise in query strings here). -/
def goTrimSpaceEmpty (s : String) : Bool :=
  s.data.all fun c =>
    c = ' ' ∨ c = '\t' ∨ c = '\n' ∨ c = '\x0b' ∨ c = '\x0c' ∨ c = '\r' ∨
    c = '\u0085' ∨ c = '\u00A0'

/-- `transactionsHandler` from `main.go`, in source order: CORS preflight,
method check, filter defaulting, cache lookup (a hit that unmarshals is
served immediately), token check, Gmail client construction, filter →
lookback-days mapping, fetch, summarize, cache store, respond. -/
def transactionsHandler (method queryFilter queryToken : String)
    (cacheGet : String → Option String)
    (unmarshal : String → Option TransactionsResponse)
    (marshal : TransactionsResponse → String)
    (svcError : Option String)
    (fetch : ℕ → Except FetchError (List Transaction)) : HandlerOutcome :=
  if method = "OPTIONS" then ⟨200, .empty, [], none⟩
  else if method ≠ "GET" then ⟨405, .err "Method not allowed" 405, [], none⟩
  else
    let filter := if queryFilter = "" then "all" else queryFilter
    let key := getCacheKey filter
    let hit : Option TransactionsResponse :=
      match cacheGet key with
      | some cached => unmarshal cached
      | none => none
    match hit with
    | some response => ⟨200, .payload (marshal response ++ "\n"), [], none⟩
    | none =>
      if goTrimSpaceEmpty queryToken then
        ⟨401, .err "Missing access token in query string" 401, [], none⟩
      else
        match svcError with
        | some e => ⟨500, .err ("Gmail service error: " ++ e) 500, [], none⟩
        | none =>
          let days : Option ℕ :=
            if filter = "daily" then some 2
            else if filter = "weekly" then some 14
            else if filter = "monthly" then some 60
            else if filter = "all" then some 90
            else none
          match days with
          | none => ⟨400, .err "Invalid filter" 400, [], none⟩
          | some d =>
            match fetch d with
            | .error (.app code msg) => ⟨code, .err msg code, [d], none⟩
            | .error (.generic msg) => ⟨500, .err msg 500, [d], none⟩
            | .ok transactions =>
              match calculateSummary transactions filter with
              | .error e => ⟨500, .err e 500, [d], none⟩
              | .ok summary =>
                let response : TransactionsResponse := ⟨summary, transactions⟩
                let respJSON := marshal response
                ⟨200, .payload (respJSON ++ "\n"), [d], some (key, respJSON)⟩

/-- "The filter key has no valid cached entry": the Redis read misses, or
what it returns does not unmarshal (both are treated as a miss). -/
def cacheMissFor (cacheGet : String → Option String)
    (unmarshal : String → Option TransactionsResponse) (key : String) : Prop :=
  ∀ c, cacheGet key = some c → unmarshal c = none

/-! ## Specification-side definitions

These follow the spec's words, to be compared with the embeddings of the
source functions above. -/

mutual

/-- Depth-first preorder flattening of a MIME tree: the current node
before its children, children in order. -/
def preorder : MessagePart → List MessagePart
  | .mk mime body parts => .mk mime body parts :: preorderList parts

/-- Preorder flattening of a forest. -/
def preorderList : List MessagePart → List MessagePart
  | [] => []
  | p :: ps => preorder p ++ preorderList ps

end

/-- Spec 4.1: a node's decodable body, "preferring plain text type over
HTML type" at the node. -/
def decodableBody (p : MessagePart) : Option String :=
  match p with
  | .mk mime body _ =>
    (tryDecode "text/plain" mime body).or (tryDecode "text/html" mime body)

/-- Spec 4.1: "the first decodable plain-text or HTML body found via
depth-first traversal preferring the current node before descending into
children  […]  Returns empty string if no decodable part exists." -/
def extractSpec (p : MessagePart) : String :=
  ((preorder p).findSome? decodableBody).getD ""

/-- The `YYYY-MM` month key of a transaction, when its date parses. -/
def monthKey (t : Transaction) : Option String :=
  (parseDate t.date).map formatYM

/-- The distinct month keys present in a transaction list, in lexicographic
order. -/
def monthsSorted (txns : List Transaction) : List String :=
  ((txns.filterMap monthKey).dedup).insertionSort strLe

/-- Total amount of the transactions falling in month `k`. -/
def sumMonth (txns : List Transaction) (k : String) : ℚ :=
  ((txns.filter fun t => monthKey t = some k).map (·.amount)).sum

/-- Total amount of the transactions whose date string is exactly `k`. -/
def sumKey (txns : List Transaction) (k : String) : ℚ :=
  ((txns.filter fun t => t.date = k).map (·.amount)).sum

/-- The dates of a transaction list that parse, in order. -/
def parsedDates (txns : List Transaction) : List Date :=
  txns.filterMap fun t => parseDate t.date

/-- The sum of all amounts of a transaction list. -/
def sumAmounts (txns : List Transaction) : ℚ :=
  (txns.map (·.amount)).sum

/-- Does `pat` occur at the head of `s`? -/
def headMatches : List Char → List Char → Bool
  | _, [] => true
  | [], _ :: _ => false
  | c :: cs, p :: ps => c = p && headMatches cs ps

/-- Does `pat` occur as a contiguous substring of `s`? -/
def hasSubstr (s pat : List Char) : Bool :=
  match s with
  | [] => pat.isEmpty
  | _ :: cs => headMatches s pat || hasSubstr cs pat

/-! ## Lemmas about the accumulation map -/

theorem lookupD_addTo (m : List (String × ℚ)) (k' k : String) (v : ℚ) :
    lookupD (addTo m k' v) k = lookupD m k + (if k' = k then v else 0) := by
  induction m with
  | nil => by_cases h : k' = k <;> simp [addTo, lookupD, h]
  | cons p rest ih =>
    obtain ⟨pk, pv⟩ := p
    by_cases h1 : pk = k'
    · subst h1
      by_cases h2 : pk = k <;> simp [addTo, lookupD, h2, add_assoc]
    · by_cases h2 : pk = k
      · subst h2
        have : ¬ k' = pk := fun h => h1 h.symm
        simp [addTo, lookupD, h1, this]
      · simp [addTo, lookupD, h1, h2, ih]

theorem mem_map_fst_addTo (m : List (String × ℚ)) (k' k : String) (v : ℚ) :
    k ∈ (addTo m k' v).map Prod.fst ↔ k ∈ m.map Prod.fst ∨ k = k' := by
  induction m with
  | nil => simp [addTo]
  | cons p rest ih =>
    obtain ⟨pk, pv⟩ := p
    by_cases h1 : pk = k'
    · subst h1; simp [addTo]; tauto
    · simp [addTo, h1, ih]; tauto

theorem nodup_map_fst_addTo (m : List (String × ℚ)) (k : String) (v : ℚ)
    (h : (m.map Prod.fst).Nodup) : ((addTo m k v).map Prod.fst).Nodup := by
  induction m with
  | nil => simp [addTo]
  | cons p rest ih =>
    obtain ⟨pk, pv⟩ := p
    simp only [List.map_cons, List.nodup_cons] at h
    by_cases h1 : pk = k
    · subst h1; simpa [addTo] using h
    · simp only [addTo, h1, if_false, List.map_cons, List.nodup_cons]
      refine ⟨fun hc => ?_, ih h.2⟩
      rcases (mem_map_fst_addTo rest k pk v).1 hc with hm | he
      · exact h.1 hm
      · exact h1 he

/-- The per-key accumulation loop shared by the summary arms, with the
key of a transaction given by `f` (`none` = skip the transaction). -/
def groupFold (f : Transaction → Option String) (m : List (String × ℚ)) :
    List Transaction → List (String × ℚ)
  | [] => m
  | t :: ts =>
    groupFold f (match f t with
                 | none => m
                 | some k => addTo m k t.amount) ts

/-- Total amount of the transactions assigned key `k` by `f`. -/
def sumBy (f : Transaction → Option String) (txns : List Transaction)
    (k : String) : ℚ :=
  ((txns.filter fun t => f t = some k).map (·.amount)).sum

theorem lookupD_groupFold (f : Transaction → Option String) :
    ∀ (txns : List Transaction) (m : List (String × ℚ)) (k : String),
      lookupD (groupFold f m txns) k = lookupD m k + sumBy f txns k := by
  intro txns
  induction txns with
  | nil => intro m k; simp [groupFold, sumBy]
  | cons t ts ih =>
    intro m k
    rcases hf : f t with _ | k'
    · have : sumBy f (t :: ts) k = sumBy f ts k := by
        simp [sumBy, List.filter_cons, hf]
      rw [this, groupFold, hf, ih]
    · by_cases hk : k' = k
      · subst hk
        have : sumBy f (t :: ts) k' = t.amount + sumBy f ts k' := by
          simp [sumBy, List.filter_cons, hf]
        rw [this, groupFold, hf, ih, lookupD_addTo]
        simp [add_assoc, add_comm (sumBy f ts k')]
      · have : sumBy f (t :: ts) k = sumBy f ts k := by
          simp [sumBy, List.filter_cons, hf, hk]
        rw [this, groupFold, hf, ih, lookupD_addTo]
        simp [hk]

theorem mem_map_fst_groupFold (f : Transaction → Option String) :
    ∀ (txns : List Transaction) (m : List (String × ℚ)) (k : String),
      k ∈ (groupFold f m txns).map Prod.fst ↔
        k ∈ m.map Prod.fst ∨ ∃ t ∈ txns, f t = some k := by
  intro txns
  induction txns with
  | nil => intro m k; simp [groupFold]
  | cons t ts ih =>
    intro m k
    rcases hf : f t with _ | k'
    · rw [groupFold, hf, ih]
      simp only [List.mem_cons]
      constructor
      · rintro (h | ⟨u, hu, hk⟩)
        · exact Or.inl h
        · exact Or.inr ⟨u, Or.inr hu, hk⟩
      · rintro (h | ⟨u, hu | hu, hk⟩)
        · exact Or.inl h
        · subst hu; rw [hf] at hk; cases hk
        · exact Or.inr ⟨u, hu, hk⟩
    · rw [groupFold, hf, ih]
      constructor
      · rintro (h | ⟨u, hu, hk⟩)
        · rcases (mem_map_fst_addTo m k' k t.amount).1 h with h | h
          · exact Or.inl h
          · exact Or.inr ⟨t, List.mem_cons_self t ts, by rw [hf, h]⟩
        · exact Or.inr ⟨u, List.mem_cons_of_mem t hu, hk⟩
      · rintro (h | ⟨u, hu, hk⟩)
        · exact Or.inl ((mem_map_fst_addTo m k' k t.amount).2 (Or.inl h))
        · rcases List.mem_cons.1 hu with hu | hu
          · rw [hu, hf] at hk
            exact Or.inl ((mem_map_fst_addTo m k' k t.amount).2
              (Or.inr (Option.some_injective _ hk.symm)))
          · exact Or.inr ⟨u, hu, hk⟩

theorem nodup_map_fst_groupFold (f : Transaction → Option String) :
    ∀ (txns : List Transaction) (m : List (String × ℚ)),
      (m.map Prod.fst).Nodup → ((groupFold f m txns).map Prod.fst).Nodup := by
  intro txns
  induction txns with
  | nil => intro m h; exact h
  | cons t ts ih =>
    intro m h
    rcases hf : f t with _ | k'
    · rw [groupFold, hf]; exact ih m h
    · rw [groupFold, hf]; exact ih _ (nodup_map_fst_addTo m k' t.amount h)

/-! ## The monthly summary: claim-side equalities -/

theorem formatYM_ne_empty (d : Date) : formatYM d ≠ "" := by
  intro h
  have h' := congrArg String.data h
  simp [formatYM, digits4, digits2] at h'

theorem monthlyFold_eq (txns : List Transaction) : ∀ m,
    txns.foldl (fun acc txn =>
      match parseDate txn.date with
      | none => acc
      | some t => addTo acc (formatYM t) txn.amount) m
      = groupFold monthKey m txns := by
  induction txns with
  | nil => intro m; rfl
  | cons t ts ih =>
    intro m
    rcases h : parseDate t.date with _ | d
    · rw [List.foldl_cons, groupFold,
        show monthKey t = none from by simp [monthKey, h]]
      simpa only [h] using ih m
    · rw [List.foldl_cons, groupFold,
        show monthKey t = some (formatYM d) from by simp [monthKey, h]]
      simpa only [h] using ih (addTo m (formatYM d) t.amount)

theorem monthsSorted_eq (txns : List Transaction) :
    ((groupFold monthKey [] txns).map Prod.fst).insertionSort strLe
      = monthsSorted txns := by
  have h1 : ((groupFold monthKey [] txns).map Prod.fst).Nodup :=
    nodup_map_fst_groupFold monthKey txns [] (by simp)
  have h2 : ((txns.filterMap monthKey).dedup).Nodup := List.nodup_dedup _
  have hm : ∀ k, k ∈ (groupFold monthKey [] txns).map Prod.fst ↔
      k ∈ (txns.filterMap monthKey).dedup := by
    intro k
    rw [mem_map_fst_groupFold, List.mem_dedup, List.mem_filterMap]
    simp
  have hp := (List.perm_ext_iff_of_nodup h1 h2).2 hm
  have hq : List.Perm (((groupFold monthKey [] txns).map Prod.fst).insertionSort strLe)
      (((txns.filterMap monthKey).dedup).insertionSort strLe) :=
    (List.perm_insertionSort _ _).trans
      (hp.trans (List.perm_insertionSort _ _).symm)
  exact List.eq_of_perm_of_sorted hq
    (List.sorted_insertionSort _ _) (List.sorted_insertionSort _ _)

theorem mem_monthsSorted_ne_empty {txns : List Transaction} {k : String}
    (hk : k ∈ monthsSorted txns) : k ≠ "" := by
  have h1 : k ∈ (txns.filterMap monthKey).dedup :=
    (List.perm_insertionSort _ _).mem_iff.1 hk
  have h2 : k ∈ txns.filterMap monthKey := List.mem_dedup.1 h1
  obtain ⟨t, _, ht⟩ := List.mem_filterMap.1 h2
  obtain ⟨d, _, hd⟩ := Option.map_eq_some'.1 ht
  exact hd ▸ formatYM_ne_empty d

theorem sumBy_monthKey (txns : List Transaction) (k : String) :
    sumBy monthKey txns k = sumMonth txns k := rfl

/-! ## Sum of all amounts (default arm) -/

theorem foldl_add_amount (txns : List Transaction) : ∀ a : ℚ,
    txns.foldl (fun acc t => acc + t.amount) a = a + sumAmounts txns := by
  induction txns with
  | nil => intro a; simp [sumAmounts]
  | cons t ts ih =>
    intro a
    rw [List.foldl_cons, ih]
    simp [sumAmounts, add_assoc]

/-- C3: for every transaction list (with at least two present months, as
the claim's "second-greatest present key" presupposes), `calculateSummary`
with period "monthly" groups amounts by `YYYY-MM` month key, orders the
present keys lexicographically, and returns `Total` = the total of the
greatest present key and `Previously` = the total of the second-greatest
present key — even when calendar months between them are absent, since
only *present* keys are sorted and indexed. -/
theorem monthly_compares_two_greatest_present_months (txns : List Transaction)
    (h : 2 ≤ (monthsSorted txns).length) :
    ∃ s, calculateSummary txns "monthly" = Except.ok s ∧
      s.total = sumMonth txns
        ((monthsSorted txns).getD ((monthsSorted txns).length - 1) "") ∧
      s.previously = sumMonth txns
        ((monthsSorted txns).getD ((monthsSorted txns).length - 2) "") := by
  have hsort := monthsSorted_eq txns
  have hlen : (monthsSorted txns).length
      = ((groupFold monthKey [] txns).map Prod.fst).length := by
    rw [← hsort]; exact (List.perm_insertionSort _ _).length_eq
  have hne : (groupFold monthKey [] txns).map Prod.fst ≠ [] := by
    intro h0
    rw [h0] at hlen
    simp only [List.length_nil] at hlen
    omega
  have hidx : (monthsSorted txns).length - 2 < (monthsSorted txns).length := by
    omega
  have hprev_ne : (monthsSorted txns).getD ((monthsSorted txns).length - 2) "" ≠ "" := by
    apply mem_monthsSorted_ne_empty
    rw [List.getD_eq_getElem _ _ hidx]
    exact List.getElem_mem _
  have hcalc : calculateSummary txns "monthly" = calcMonthly txns := rfl
  rw [hcalc]
  simp only [calcMonthly]
  rw [monthlyFold_eq txns [], hsort, if_neg hne, if_pos h, if_pos hprev_ne]
  refine ⟨_, rfl, ?_, ?_⟩ <;>
    simp [lookupD_groupFold, lookupD, sumBy_monthKey]

/-- Witness for C3 at a list with transactions only in 2024-01 and
2024-03: the two present months are compared although 2024-02 is absent. -/
theorem monthly_compares_two_greatest_present_months_witness :
    ∃ s, calculateSummary
        [⟨"2024-01-15", 5, ""⟩, ⟨"2024-03-10", 7, ""⟩] "monthly"
        = Except.ok s ∧
      s.total = sumMonth [⟨"2024-01-15", 5, ""⟩, ⟨"2024-03-10", 7, ""⟩]
        ((monthsSorted [⟨"2024-01-15", 5, ""⟩, ⟨"2024-03-10", 7, ""⟩]).getD
          ((monthsSorted [⟨"2024-01-15", 5, ""⟩, ⟨"2024-03-10", 7, ""⟩]).length - 1) "") ∧
      s.previously = sumMonth [⟨"2024-01-15", 5, ""⟩, ⟨"2024-03-10", 7, ""⟩]
        ((monthsSorted [⟨"2024-01-15", 5, ""⟩, ⟨"2024-03-10", 7, ""⟩]).getD
          ((monthsSorted [⟨"2024-01-15", 5, ""⟩, ⟨"2024-03-10", 7, ""⟩]).length - 2) "") :=
  monthly_compares_two_greatest_present_months
    [⟨"2024-01-15", 5, ""⟩, ⟨"2024-03-10", 7, ""⟩] (by decide)

/-- C9: for every period other than "daily", "weekly" and "monthly"
(including "all") and every transaction list — also the empty list and
lists with no parseable date — `calculateSummary` returns `Total` = the
sum of all amounts, `Previously` = 0 and `ChangePercentage` = 0, and
never an error. -/
theorem default_period_sums_everything (period : String)
    (txns : List Transaction) (h1 : period ≠ "daily") (h2 : period ≠ "weekly")
    (h3 : period ≠ "monthly") :
    calculateSummary txns period = Except.ok ⟨sumAmounts txns, 0, 0⟩ := by
  simp only [calculateSummary, if_neg h1, if_neg h2, if_neg h3, calcDefault]
  rw [foldl_add_amount txns 0, zero_add]

/-- Witness for C9 at period "all" with one unparseable date. -/
theorem default_period_sums_everything_witness :
    calculateSummary [⟨"2024-01-15", 5, ""⟩, ⟨"not-a-date", 7, ""⟩] "all"
      = Except.ok ⟨12, 0, 0⟩ := by
  have h := default_period_sums_everything "all"
    [⟨"2024-01-15", 5, ""⟩, ⟨"not-a-date", 7, ""⟩]
    (by decide) (by decide) (by decide)
  rw [h]
  norm_num [sumAmounts]

/-! ## Content extraction refines the spec's preorder description -/

theorem b64Groups_ne_nil : ∀ cs : List Char, cs ≠ [] →
    ∀ bs, b64Groups cs = some bs → bs ≠ [] := by
  intro cs hcs bs hb
  rcases cs with _ | ⟨a, _ | ⟨b, _ | ⟨c, _ | ⟨d, rest⟩⟩⟩⟩
  · exact absurd rfl hcs
  · simp [b64Groups] at hb
  · simp [b64Groups] at hb
  · simp [b64Groups] at hb
  · rw [b64Groups] at hb
    split at hb
    · split at hb
      · split at hb
        · cases hb; simp
        · cases hb
      · split at hb
        · split at hb
          · split at hb
            · cases hb; simp
            · cases hb
          · split at hb
            · obtain ⟨gs, _, hg⟩ := Option.map_eq_some'.1 hb
              rw [← hg]; simp
            · cases hb
        · cases hb
    · cases hb

theorem decodeB64Url_ne_empty {s out : String} (hs : s ≠ "")
    (h : decodeB64Url s = some out) : out ≠ "" := by
  obtain ⟨gs, hg, ho⟩ := Option.map_eq_some'.1 h
  have hd : s.data ≠ [] := fun hnil => hs (String.ext (by simp [hnil]))
  have hgs : gs ≠ [] := b64Groups_ne_nil s.data hd gs hg
  intro h0
  apply hgs
  have h2 : ({ data := List.map Char.ofNat gs } : String) = "" := ho.trans h0
  have h3 := congrArg String.data h2
  simpa using h3

theorem tryDecode_ne_empty {want mime : String} {body : Option String}
    {s : String} (h : tryDecode want mime body = some s) : s ≠ "" := by
  unfold tryDecode at h
  split at h
  · split at h
    · split at h
      · exact decodeB64Url_ne_empty (by assumption) h
      · cases h
    · cases h
  · cases h

theorem decodableBody_ne_empty {p : MessagePart} {s : String}
    (h : decodableBody p = some s) : s ≠ "" := by
  obtain ⟨mime, body, parts⟩ := p
  rw [decodableBody] at h
  rcases hp : tryDecode "text/plain" mime body with _ | r <;> rw [hp] at h
  · simp at h
    exact tryDecode_ne_empty h
  · simp at h
    exact h ▸ tryDecode_ne_empty hp

theorem extractFromParts_eq (n : ℕ)
    (ih : ∀ p : MessagePart, sizeOf p ≤ n →
      extractMessageContent p = extractSpec p) :
    ∀ ps : List MessagePart, (∀ q ∈ ps, sizeOf q ≤ n) →
      extractFromParts ps = ((preorderList ps).findSome? decodableBody).getD "" := by
  intro ps
  induction ps with
  | nil => intro _; simp [extractFromParts, preorderList]
  | cons q qs ihq =>
    intro hsz
    have hq : extractMessageContent q = extractSpec q :=
      ih q (hsz q (List.mem_cons_self q qs))
    rw [extractFromParts, preorderList, List.findSome?_append]
    cases hfs : (preorder q).findSome? decodableBody with
    | some s =>
      have hs : s ≠ "" := by
        obtain ⟨r, _, hrs⟩ := List.exists_of_findSome?_eq_some hfs
        exact decodableBody_ne_empty hrs
      have he : extractMessageContent q = s := by
        rw [hq, extractSpec, hfs]; rfl
      simp [he, hs]
    | none =>
      have he : extractMessageContent q = "" := by
        rw [hq, extractSpec, hfs]; rfl
      simp only [he, ne_eq, not_true_eq_false, if_false, Option.none_or]
      exact ihq (fun r hr => hsz r (List.mem_cons_of_mem q hr))

theorem extract_eq_spec_bounded : ∀ n, ∀ p : MessagePart, sizeOf p ≤ n →
    extractMessageContent p = extractSpec p := by
  intro n
  induction n with
  | zero =>
    intro p hp
    obtain ⟨mime, body, parts⟩ := p
    rw [MessagePart.mk.sizeOf_spec] at hp
    omega
  | succ n ih =>
    intro p hp
    obtain ⟨mime, body, parts⟩ := p
    have hps : ∀ q ∈ parts, sizeOf q ≤ n := by
      intro q hq
      have h1 : sizeOf q < sizeOf parts := List.sizeOf_lt_of_mem hq
      rw [MessagePart.mk.sizeOf_spec] at hp
      omega
    rw [extractMessageContent]
    rcases htp : tryDecode "text/plain" mime body with _ | s
    · rcases hth : tryDecode "text/html" mime body with _ | s
      · rw [extractFromParts_eq n ih parts hps]
        simp [extractSpec, preorder, List.findSome?_cons, decodableBody, htp, hth]
      · simp [extractSpec, preorder, List.findSome?_cons, decodableBody, htp, hth]
    · simp [extractSpec, preorder, List.findSome?_cons, decodableBody, htp]

/-- C7: for every MIME part tree, `extractMessageContent` returns exactly
what the spec describes: the first decodable `text/plain` or `text/html`
body in a depth-first traversal that visits a node before its children
(preferring the plain-text decode over the HTML decode at a node), and
the empty string when no decodable part exists. -/
theorem extractMessageContent_eq_spec (p : MessagePart) :
    extractMessageContent p = extractSpec p :=
  extract_eq_spec_bounded (sizeOf p) p le_rfl

/-! ## The fetch loop skips exactly the failing messages -/

theorem fetchLoop_acc (msgs : List GmailMessage) : ∀ acc,
    msgs.foldl
      (fun acc msg =>
        match parseTransactionEmail msg with
        | .error _ => acc
        | .ok t => acc ++ [t]) acc
      = acc ++ fetchLoop msgs := by
  induction msgs with
  | nil => intro acc; simp [fetchLoop]
  | cons m ms ih =>
    intro acc
    rw [List.foldl_cons, ih]
    conv_rhs => rw [fetchLoop, List.foldl_cons, ih]
    cases parseTransactionEmail m <;> simp

theorem fetchLoop_append (l1 l2 : List GmailMessage) :
    fetchLoop (l1 ++ l2) = fetchLoop l1 ++ fetchLoop l2 := by
  rw [fetchLoop, List.foldl_append, fetchLoop_acc]
  rfl

theorem fetchLoop_skip {msg : GmailMessage}
    (h : ∃ e, parseTransactionEmail msg = .error e)
    (pre post : List GmailMessage) :
    fetchLoop (pre ++ msg :: post) = fetchLoop pre ++ fetchLoop post := by
  rw [show pre ++ msg :: post = pre ++ [msg] ++ post by simp,
    fetchLoop_append, fetchLoop_append]
  obtain ⟨e, he⟩ := h
  have h1 : fetchLoop [msg] = [] := by simp [fetchLoop, he]
  rw [h1, List.append_nil]

/-- C6: on a message with extractable content, `parseTransactionEmail`
fails with "could not parse transaction details" exactly when the amount
pattern or the date pattern fails to match the stripped body; and in the
fetch loop any per-message parse failure only drops that message — the
messages before and after it are still processed, and the loop's result
type carries no error at all. -/
theorem parse_detail_failure_iff_pattern_miss_and_loop_skips
    (msg : GmailMessage) (pre post : List GmailMessage)
    (hbody : extractMessageContent msg.payload ≠ "") :
    (parseTransactionEmail msg = .error "could not parse transaction details" ↔
      (findAmount (stripHTMLTags (extractMessageContent msg.payload)).data = none ∨
       findDate (stripHTMLTags (extractMessageContent msg.payload)).data = none)) ∧
    ((∃ e, parseTransactionEmail msg = .error e) →
      fetchLoop (pre ++ msg :: post) = fetchLoop pre ++ fetchLoop post) := by
  constructor
  · rw [parseTransactionEmail, if_neg hbody]
    rcases ha : findAmount (stripHTMLTags (extractMessageContent msg.payload)).data
        with _ | am <;>
      rcases hd : findDate (stripHTMLTags (extractMessageContent msg.payload)).data
        with _ | dm <;>
      simp [ha, hd]
    rcases parseFloatGo (removeCommas am) with _ | amount
    · simp
    · rcases parseDDMMYY dm with _ | d <;> simp
  · intro h
    exact fetchLoop_skip h pre post

/-- Witness for C6: a plain-text "hello" message fails both patterns with
the detail error, and dropping it from a batch keeps the surrounding
messages' transactions. -/
theorem parse_detail_failure_iff_pattern_miss_and_loop_skips_witness :
    (parseTransactionEmail ⟨.mk "text/plain" (some "aGVsbG8=") []⟩
        = .error "could not parse transaction details" ↔
      (findAmount (stripHTMLTags (extractMessageContent
          (.mk "text/plain" (some "aGVsbG8=") []))).data = none ∨
       findDate (stripHTMLTags (extractMessageContent
          (.mk "text/plain" (some "aGVsbG8=") []))).data = none)) ∧
    ((∃ e, parseTransactionEmail ⟨.mk "text/plain" (some "aGVsbG8=") []⟩
        = .error e) →
      fetchLoop
          ([⟨.mk "text/html" (some "PHA-UnMuIDEsMjM0LjUwIG9uIDA1LTAzLTI0PC9wPg==") []⟩]
            ++ ⟨.mk "text/plain" (some "aGVsbG8=") []⟩ ::
              [⟨.mk "text/html" (some "PHA-UnMuIDEsMjM0LjUwIG9uIDA1LTAzLTI0PC9wPg==") []⟩])
        = fetchLoop [⟨.mk "text/html" (some "PHA-UnMuIDEsMjM0LjUwIG9uIDA1LTAzLTI0PC9wPg==") []⟩]
          ++ fetchLoop [⟨.mk "text/html" (some "PHA-UnMuIDEsMjM0LjUwIG9uIDA1LTAzLTI0PC9wPg==") []⟩]) :=
  parse_detail_failure_iff_pattern_miss_and_loop_skips
    ⟨.mk "text/plain" (some "aGVsbG8=") []⟩
    [⟨.mk "text/html" (some "PHA-UnMuIDEsMjM0LjUwIG9uIDA1LTAzLTI0PC9wPg==") []⟩]
    [⟨.mk "text/html" (some "PHA-UnMuIDEsMjM0LjUwIG9uIDA1LTAzLTI0PC9wPg==") []⟩]
    (by decide)

/-- C2: the full pipeline — content extraction from the MIME tree whose
only part is a `text/html` part with base64url body
`<p>Rs. 1,234.50 on 05-03-24</p>`, markup stripping, field extraction —
produces the transaction with date "2024-03-05" and amount 1234.50. -/
theorem pipeline_parses_html_rupee_example :
    parseTransactionEmail
        ⟨.mk "text/html" (some "PHA-UnMuIDEsMjM0LjUwIG9uIDA1LTAzLTI0PC9wPg==") []⟩
      = .ok ⟨"2024-03-05", 1234.50, "Transaction from HTML email"⟩ := by
  have h6 : parseFloatGo "1234.50" = some 1234.50 := by
    simp +decide [parseFloatGo, digitVal, List.takeWhile, List.dropWhile]
    norm_num
  have hext : extractMessageContent
      (.mk "text/html" (some "PHA-UnMuIDEsMjM0LjUwIG9uIDA1LTAzLTI0PC9wPg==") [])
      = "<p>Rs. 1,234.50 on 05-03-24</p>" := rfl
  have hstrip : stripHTMLTags "<p>Rs. 1,234.50 on 05-03-24</p>"
      = "Rs. 1,234.50 on 05-03-24" := rfl
  have hfa : findAmount ("Rs. 1,234.50 on 05-03-24").data
      = some "1,234.50" := rfl
  have hfd : findDate ("Rs. 1,234.50 on 05-03-24").data
      = some "05-03-24" := rfl
  have hrc : removeCommas "1,234.50" = "1234.50" := rfl
  have hdd : parseDDMMYY "05-03-24" = some ⟨2024, 3, 5⟩ := rfl
  have hfmt : formatDate ⟨2024, 3, 5⟩ = "2024-03-05" := rfl
  simp [parseTransactionEmail, hext, hstrip, hfa, hfd, hrc, h6, hdd, hfmt]

/-- C10: the unescaped `.` after `Rs` in the amount pattern matches any
non-newline character, so bodies without the literal token "Rs." — such
as "Rs 100 on 01-02-24" (space matched by `.`) and "RsX100 on 01-02-24"
— still extract successfully, with the numeric token as the amount. -/
theorem amount_pattern_dot_is_wildcard :
    hasSubstr ("Rs 100 on 01-02-24").data ("Rs.").data = false ∧
    hasSubstr ("RsX100 on 01-02-24").data ("Rs.").data = false ∧
    findAmount ("Rs 100 on 01-02-24").data = some "100" ∧
    findAmount ("RsX100 on 01-02-24").data = some "100" ∧
    parseTransactionEmail ⟨.mk "text/plain" (some "UnMgMTAwIG9uIDAxLTAyLTI0") []⟩
      = .ok ⟨"2024-02-01", 100, "Transaction from HTML email"⟩ ∧
    parseTransactionEmail ⟨.mk "text/plain" (some "UnNYMTAwIG9uIDAxLTAyLTI0") []⟩
      = .ok ⟨"2024-02-01", 100, "Transaction from HTML email"⟩ := by
  have h100 : parseFloatGo "100" = some 100 := by
    simp +decide [parseFloatGo, digitVal, List.takeWhile, List.dropWhile]
  have hdd : parseDDMMYY "01-02-24" = some ⟨2024, 2, 1⟩ := rfl
  have hfmt : formatDate ⟨2024, 2, 1⟩ = "2024-02-01" := rfl
  refine ⟨rfl, rfl, rfl, rfl, ?_, ?_⟩
  · have hext : extractMessageContent
        (.mk "text/plain" (some "UnMgMTAwIG9uIDAxLTAyLTI0") [])
        = "Rs 100 on 01-02-24" := rfl
    have hstrip : stripHTMLTags "Rs 100 on 01-02-24"
        = "Rs 100 on 01-02-24" := rfl
    have hfa : findAmount ("Rs 100 on 01-02-24").data = some "100" := rfl
    have hfd : findDate ("Rs 100 on 01-02-24").data = some "01-02-24" := rfl
    have hrc : removeCommas "100" = "100" := rfl
    simp [parseTransactionEmail, hext, hstrip, hfa, hfd, hrc, h100, hdd, hfmt]
  · have hext : extractMessageContent
        (.mk "text/plain" (some "UnNYMTAwIG9uIDAxLTAyLTI0") [])
        = "RsX100 on 01-02-24" := rfl
    have hstrip : stripHTMLTags "RsX100 on 01-02-24"
        = "RsX100 on 01-02-24" := rfl
    have hfa : findAmount ("RsX100 on 01-02-24").data = some "100" := rfl
    have hfd : findDate ("RsX100 on 01-02-24").data = some "01-02-24" := rfl
    have hrc : removeCommas "100" = "100" := rfl
    simp [parseTransactionEmail, hext, hstrip, hfa, hfd, hrc, h100, hdd, hfmt]

/-! ## Daily summary machinery: date bounds, maximum date, totals -/

theorem digit_toNat_bounds {c : Char} (h : c.isDigit = true) :
    48 ≤ c.toNat ∧ c.toNat ≤ 57 := by
  unfold Char.isDigit at h
  simp only [Bool.and_eq_true, decide_eq_true_eq, ge_iff_le] at h
  obtain ⟨h1, h2⟩ := h
  have g1 : (48 : UInt32).toNat ≤ c.val.toNat := by
    rw [UInt32.le_def, BitVec.le_def] at h1
    exact h1
  have g2 : c.val.toNat ≤ (57 : UInt32).toNat := by
    rw [UInt32.le_def, BitVec.le_def] at h2
    exact h2
  have e1 : (48 : UInt32).toNat = 48 := rfl
  have e2 : (57 : UInt32).toNat = 57 := rfl
  rw [e1] at g1
  rw [e2] at g2
  exact ⟨g1, g2⟩

theorem digitVal_lt_ten {c : Char} (h : c.isDigit = true) : digitVal c < 10 := by
  have := digit_toNat_bounds h
  unfold digitVal
  omega

theorem digitChar_isDigit {k : ℕ} (h : k < 10) : (digitChar k).isDigit = true := by
  interval_cases k <;> decide

theorem digitVal_digitChar {k : ℕ} (h : k < 10) : digitVal (digitChar k) = k := by
  interval_cases k <;> decide

theorem daysInMonth_ge (y m : ℕ) : 28 ≤ daysInMonth y m := by
  unfold daysInMonth
  split_ifs <;> omega

theorem daysInMonth_le (y m : ℕ) : daysInMonth y m ≤ 31 := by
  unfold daysInMonth
  split_ifs <;> omega

/-- The dates `time.Parse("2006-01-02", ·)` can produce: in-range month
and day, four-digit year. -/
def validDate (d : Date) : Prop :=
  1 ≤ d.m ∧ d.m ≤ 12 ∧ 1 ≤ d.d ∧ d.d ≤ daysInMonth d.y d.m ∧ d.y ≤ 9999

theorem validDate_mk {y m dd : ℕ} (h1 : 1 ≤ m) (h2 : m ≤ 12) (h3 : 1 ≤ dd)
    (h4 : dd ≤ daysInMonth y m) (h5 : y ≤ 9999) : validDate ⟨y, m, dd⟩ :=
  ⟨h1, h2, h3, h4, h5⟩

theorem validDate_elim {y m dd : ℕ} (h : validDate ⟨y, m, dd⟩) :
    1 ≤ m ∧ m ≤ 12 ∧ 1 ≤ dd ∧ dd ≤ daysInMonth y m ∧ y ≤ 9999 := h

theorem parseDate_valid {s : String} {d : Date} (h : parseDate s = some d) :
    validDate d := by
  unfold parseDate at h
  split at h
  · rename_i y1 y2 y3 y4 h1c m1 m2 h2c d1 d2 _
    split at h
    · rename_i hdig
      dsimp only at h
      split at h
      · rename_i hrange
        simp only [Bool.and_eq_true, decide_eq_true_eq] at hdig hrange
        cases h
        have b1 := digitVal_lt_ten hdig.1.1.1.1.1.1.1.1.1
        have b2 := digitVal_lt_ten hdig.1.1.1.1.1.1.1.1.2
        have b3 := digitVal_lt_ten hdig.1.1.1.1.1.1.1.2
        have b4 := digitVal_lt_ten hdig.1.1.1.1.1.1.2
        exact validDate_mk hrange.1.1.1 hrange.1.1.2 hrange.1.2 hrange.2
          (by omega)
      · cases h
    · cases h
  · cases h

theorem prevDay_valid {d : Date} (h : validDate d) : validDate (prevDay d) := by
  obtain ⟨y, m, dd⟩ := d
  obtain ⟨h1, h2, h3, h4, h5⟩ := validDate_elim h
  have hge := daysInMonth_ge y (m - 1)
  rw [prevDay]
  dsimp only
  split_ifs with c1 c2
  · exact validDate_mk h1 h2 (by omega) (by omega) h5
  · exact validDate_mk (by omega) (by omega) (by omega) (le_refl _) h5
  · exact validDate_mk (by omega) (by omega) (by omega)
      (le_refl 31 : 31 ≤ daysInMonth (y - 1) 12) (by omega)

theorem parseDate_format {d : Date} (h : validDate d) :
    parseDate (formatDate d) = some d := by
  obtain ⟨y, m, dd⟩ := d
  obtain ⟨h1, h2, h3, h4, h5⟩ := validDate_elim h
  have hd99 : dd ≤ 99 := le_trans h4 (le_trans (daysInMonth_le y m) (by omega))
  have m10 : ∀ n : ℕ, n % 10 < 10 := fun n => Nat.mod_lt _ (by omega)
  unfold parseDate formatDate
  dsimp only
  simp only [digits4, digits2, List.cons_append, List.nil_append]
  rw [if_pos, if_pos]
  · congr 1
    simp only [Date.mk.injEq]
    rw [digitVal_digitChar (m10 _), digitVal_digitChar (m10 _),
      digitVal_digitChar (m10 _), digitVal_digitChar (m10 _),
      digitVal_digitChar (m10 _), digitVal_digitChar (m10 _),
      digitVal_digitChar (m10 _), digitVal_digitChar (m10 _)]
    refine ⟨?_, ?_, ?_⟩ <;> omega
  · rw [digitVal_digitChar (m10 _), digitVal_digitChar (m10 _),
      digitVal_digitChar (m10 _), digitVal_digitChar (m10 _),
      digitVal_digitChar (m10 _), digitVal_digitChar (m10 _),
      digitVal_digitChar (m10 _), digitVal_digitChar (m10 _)]
    have e1 : (m / 10 % 10) * 10 + m % 10 = m := by omega
    have e2 : (dd / 10 % 10) * 10 + dd % 10 = dd := by omega
    have e3 : (((y / 1000 % 10) * 10 + y / 100 % 10) * 10 + y / 10 % 10) * 10
        + y % 10 = y := by omega
    rw [e1, e2, e3]
    simp [h1, h2, h3, h4]
  · simp [digitChar_isDigit (m10 _)]

theorem dateLt_irrefl (a : Date) : ¬ dateLt a a := by
  unfold dateLt; omega

theorem dateLt_trans {a b c : Date} (h1 : dateLt a b) (h2 : dateLt b c) :
    dateLt a c := by
  unfold dateLt at *; omega

theorem dateLt_trans_not {a b c : Date} (h1 : dateLt a b) (h2 : ¬ dateLt c b) :
    dateLt a c := by
  unfold dateLt at *; omega

/-- The key function of the daily totals map: the transaction's raw date
string, counted only when it parses. -/
def fDaily (t : Transaction) : Option String :=
  match parseDate t.date with
  | none => none
  | some _ => some t.date

/-- The `maxDate` accumulation of the daily/weekly arms. -/
def maxFold (dt : Date) (txns : List Transaction) : Date :=
  txns.foldl
    (fun acc txn =>
      match parseDate txn.date with
      | none => acc
      | some p => if dateLt acc p then p else acc) dt

theorem maxFold_nil (dt : Date) : maxFold dt [] = dt := rfl

theorem maxFold_cons_none {t : Transaction} (h : parseDate t.date = none)
    (dt : Date) (ts : List Transaction) :
    maxFold dt (t :: ts) = maxFold dt ts := by
  simp [maxFold, List.foldl_cons, h]

theorem maxFold_cons_some {t : Transaction} {p : Date}
    (h : parseDate t.date = some p) (dt : Date) (ts : List Transaction) :
    maxFold dt (t :: ts) = maxFold (if dateLt dt p then p else dt) ts := by
  simp [maxFold, List.foldl_cons, h]

theorem parsedDates_cons_none {t : Transaction} (h : parseDate t.date = none)
    (ts : List Transaction) : parsedDates (t :: ts) = parsedDates ts := by
  simp [parsedDates, List.filterMap_cons, h]

theorem parsedDates_cons_some {t : Transaction} {p : Date}
    (h : parseDate t.date = some p) (ts : List Transaction) :
    parsedDates (t :: ts) = p :: parsedDates ts := by
  simp [parsedDates, List.filterMap_cons, h]

theorem maxFold_not_lt_init (txns : List Transaction) :
    ∀ dt, ¬ dateLt (maxFold dt txns) dt := by
  induction txns with
  | nil => intro dt; exact dateLt_irrefl dt
  | cons t ts ih =>
    intro dt
    rcases h : parseDate t.date with _ | p
    · rw [maxFold_cons_none h]; exact ih dt
    · rw [maxFold_cons_some h]
      by_cases hc : dateLt dt p
      · rw [if_pos hc]
        intro hlt
        exact ih p (dateLt_trans hlt hc)
      · rw [if_neg hc]; exact ih dt

theorem maxFold_mem (txns : List Transaction) : ∀ dt,
    maxFold dt txns = dt ∨ maxFold dt txns ∈ parsedDates txns := by
  induction txns with
  | nil => intro dt; left; rfl
  | cons t ts ih =>
    intro dt
    rcases h : parseDate t.date with _ | p
    · rw [maxFold_cons_none h, parsedDates_cons_none h]; exact ih dt
    · rw [maxFold_cons_some h, parsedDates_cons_some h]
      by_cases hc : dateLt dt p
      · rw [if_pos hc]
        rcases ih p with h0 | h0
        · right; rw [h0]; exact List.mem_cons_self _ _
        · right; exact List.mem_cons_of_mem _ h0
      · rw [if_neg hc]
        rcases ih dt with h0 | h0
        · left; exact h0
        · right; exact List.mem_cons_of_mem _ h0

theorem maxFold_ub (txns : List Transaction) : ∀ dt d, d ∈ parsedDates txns →
    ¬ dateLt (maxFold dt txns) d := by
  induction txns with
  | nil => intro dt d hd; simp [parsedDates] at hd
  | cons t ts ih =>
    intro dt d hd
    rcases h : parseDate t.date with _ | p
    · rw [parsedDates_cons_none h] at hd
      rw [maxFold_cons_none h]
      exact ih dt d hd
    · rw [parsedDates_cons_some h] at hd
      rw [maxFold_cons_some h]
      rcases List.mem_cons.1 hd with rfl | hd'
      · by_cases hc : dateLt dt d
        · rw [if_pos hc]; exact maxFold_not_lt_init ts d
        · rw [if_neg hc]
          intro hlt
          exact maxFold_not_lt_init ts dt (dateLt_trans_not hlt hc)
      · exact ih _ d hd'

theorem dailyFold_split (txns : List Transaction) :
    ∀ (m : List (String × ℚ)) (dt : Date),
    txns.foldl
      (fun (acc : List (String × ℚ) × Date) txn =>
        match parseDate txn.date with
        | none => acc
        | some t =>
          (addTo acc.1 txn.date txn.amount,
           if dateLt acc.2 t then t else acc.2)) (m, dt)
      = (groupFold fDaily m txns, maxFold dt txns) := by
  induction txns with
  | nil => intro m dt; rfl
  | cons t ts ih =>
    intro m dt
    rcases h : parseDate t.date with _ | p
    · simp only [List.foldl_cons, h, ih]
      rw [groupFold, maxFold_cons_none h]
      simp [fDaily, h]
    · simp only [List.foldl_cons, h, ih]
      rw [groupFold, maxFold_cons_some h]
      simp [fDaily, h]

theorem sumBy_fDaily {txns : List Transaction} {k : String}
    (hk : (parseDate k).isSome) : sumBy fDaily txns k = sumKey txns k := by
  unfold sumBy sumKey
  congr 1
  congr 1
  apply List.filter_congr
  intro t _
  rcases h : parseDate t.date with _ | p
  · simp only [fDaily, h]
    by_cases he : t.date = k
    · exfalso; rw [← he, h] at hk; simp at hk
    · simp [he]
  · simp only [fDaily, h]
    by_cases he : t.date = k <;> simp [he]

/-- C4 (amended: the list must contain a date parsing strictly after Go's
zero time 0001-01-01, since a transaction dated exactly 0001-01-01 parses
but leaves `maxDate` at its zero value and the function errors): the
daily summary succeeds, `Total` is the total of the latest parsed date
present, `Previously` is the total of the calendar day immediately before
it, and the change percentage is 0 whenever that previous total is 0. -/
theorem daily_compares_latest_to_prevday (txns : List Transaction)
    (h : ∃ t ∈ txns, ∃ d, parseDate t.date = some d ∧ dateLt zeroDate d) :
    ∃ M s, calculateSummary txns "daily" = Except.ok s ∧
      M ∈ parsedDates txns ∧
      (∀ d ∈ parsedDates txns, ¬ dateLt M d) ∧
      s.total = sumKey txns (formatDate M) ∧
      s.previously = sumKey txns (formatDate (prevDay M)) ∧
      (s.previously = 0 → s.changePercentage = 0) := by
  obtain ⟨t0, ht0, d0, hd0, hz⟩ := h
  have hd0m : d0 ∈ parsedDates txns := List.mem_filterMap.2 ⟨t0, ht0, hd0⟩
  have hub := maxFold_ub txns zeroDate
  have hMne : maxFold zeroDate txns ≠ zeroDate := by
    intro h0
    exact (h0 ▸ hub d0 hd0m) hz
  have hMmem : maxFold zeroDate txns ∈ parsedDates txns := by
    rcases maxFold_mem txns zeroDate with h0 | h0
    · exact absurd h0 hMne
    · exact h0
  obtain ⟨tM, htM, hpM⟩ := List.mem_filterMap.1 hMmem
  have hvM : validDate (maxFold zeroDate txns) := parseDate_valid hpM
  have hpfM : parseDate (formatDate (maxFold zeroDate txns))
      = some (maxFold zeroDate txns) := parseDate_format hvM
  have hpfP : parseDate (formatDate (prevDay (maxFold zeroDate txns)))
      = some (prevDay (maxFold zeroDate txns)) :=
    parseDate_format (prevDay_valid hvM)
  have hcalc : calculateSummary txns "daily" = calcDaily txns := rfl
  rw [hcalc]
  simp only [calcDaily, dailyFold_split txns [] zeroDate]
  rw [if_neg hMne]
  refine ⟨maxFold zeroDate txns, _, rfl, hMmem, hub, ?_, ?_, ?_⟩
  · show lookupD (groupFold fDaily [] txns)
        (formatDate (maxFold zeroDate txns)) = _
    rw [lookupD_groupFold, sumBy_fDaily (by simp [hpfM])]
    simp [lookupD]
  · show lookupD (groupFold fDaily [] txns)
        (formatDate (prevDay (maxFold zeroDate txns))) = _
    rw [lookupD_groupFold, sumBy_fDaily (by simp [hpfP])]
    simp [lookupD]
  · intro hp
    have hp' : lookupD (groupFold fDaily [] txns)
        (formatDate (prevDay (maxFold zeroDate txns))) = 0 := hp
    show (if lookupD (groupFold fDaily [] txns)
        (formatDate (prevDay (maxFold zeroDate txns))) ≠ 0 then _ else 0) = 0
    rw [if_neg (not_not_intro hp')]

/-- Witness for C4's amended statement on a concrete two-day list. -/
theorem daily_compares_latest_to_prevday_witness :
    ∃ M s, calculateSummary
        [⟨"2024-03-05", 10, ""⟩, ⟨"2024-03-04", 4, ""⟩] "daily"
        = Except.ok s ∧
      M ∈ parsedDates [⟨"2024-03-05", 10, ""⟩, ⟨"2024-03-04", 4, ""⟩] ∧
      (∀ d ∈ parsedDates [⟨"2024-03-05", 10, ""⟩, ⟨"2024-03-04", 4, ""⟩],
        ¬ dateLt M d) ∧
      s.total = sumKey [⟨"2024-03-05", 10, ""⟩, ⟨"2024-03-04", 4, ""⟩]
        (formatDate M) ∧
      s.previously = sumKey [⟨"2024-03-05", 10, ""⟩, ⟨"2024-03-04", 4, ""⟩]
        (formatDate (prevDay M)) ∧
      (s.previously = 0 → s.changePercentage = 0) :=
  daily_compares_latest_to_prevday
    [⟨"2024-03-05", 10, ""⟩, ⟨"2024-03-04", 4, ""⟩]
    ⟨⟨"2024-03-05", 10, ""⟩, by simp, ⟨2024, 3, 5⟩, rfl, by decide⟩

/-- C4 counterexample: the date string "0001-01-01" parses (it is Go's
zero time), yet the daily summary returns an error instead of any
summary, because `t.After(maxDate)` never fires and `maxDate.IsZero()`
holds. -/
theorem daily_zero_date_errors :
    parseDate "0001-01-01" = some ⟨1, 1, 1⟩ ∧
    calculateSummary [⟨"0001-01-01", 5, ""⟩] "daily"
      = .error "no valid transaction dates found" := ⟨rfl, rfl⟩

/-! ## Handler claims

Concrete instantiations of the serialization parameters, used as
round-tripping stand-ins for `encoding/json` on a fixed payload. -/

/-- A fixed response payload. -/
def r0 : TransactionsResponse := ⟨⟨0, 0, 0⟩, []⟩

/-- A decoder accepting exactly the canonical bytes of `r0`. -/
def unmarshal0 : String → Option TransactionsResponse :=
  fun s => if s = "{}" then some r0 else none

/-- The matching encoder. -/
def marshal0 : TransactionsResponse → String := fun _ => "{}"

/-- A cache holding a valid entry under the "all" key only. -/
def cache0 : String → Option String :=
  fun k => if k = "transactions:all" then some "{}" else none

/-- A provider that would fail if it were ever consulted. -/
def fetch0 : ℕ → Except FetchError (List Transaction) :=
  fun _ => .error (.generic "no provider")

/-- C1 (amended: the cache must also miss for the filter key — the
handler consults the cache before the token check, so a valid cached
entry is served with 200 even without a token): a GET whose access_token
is missing or whitespace-only and whose filter key has no valid cached
entry is answered 401 with the error body, no provider fetch and no cache
write. -/
theorem missing_token_401_on_cache_miss (queryFilter queryToken : String)
    (cacheGet : String → Option String)
    (unmarshal : String → Option TransactionsResponse)
    (marshal : TransactionsResponse → String) (svcError : Option String)
    (fetch : ℕ → Except FetchError (List Transaction))
    (hb : goTrimSpaceEmpty queryToken = true)
    (hm : cacheMissFor cacheGet unmarshal
      (getCacheKey (if queryFilter = "" then "all" else queryFilter))) :
    transactionsHandler "GET" queryFilter queryToken cacheGet unmarshal marshal
        svcError fetch
      = ⟨401, .err "Missing access token in query string" 401, [], none⟩ := by
  unfold transactionsHandler
  rw [if_neg (show ¬("GET" = "OPTIONS") by decide),
    if_neg (show ¬("GET" ≠ "GET") by simp)]
  dsimp only
  have hhit : (match cacheGet
      (getCacheKey (if queryFilter = "" then "all" else queryFilter)) with
      | some cached => unmarshal cached
      | none => none) = none := by
    rcases hc : cacheGet
        (getCacheKey (if queryFilter = "" then "all" else queryFilter))
        with _ | c
    · rfl
    · exact hm c hc
  simp only [hhit]
  rw [if_pos hb]

/-- Witness for C1's amended statement: blank token, empty cache. -/
theorem missing_token_401_on_cache_miss_witness :
    transactionsHandler "GET" "daily" " " (fun _ => none) unmarshal0 marshal0
        none fetch0
      = ⟨401, .err "Missing access token in query string" 401, [], none⟩ :=
  missing_token_401_on_cache_miss "daily" " " (fun _ => none) unmarshal0
    marshal0 none fetch0 rfl (fun c hc => by cases hc)

/-- C1 counterexample: with a valid cached entry under `transactions:all`,
a GET whose access_token is missing (empty, hence whitespace-only) is
served from the cache with status 200 and a transaction payload body —
not 401 — so the claim's "regardless of the state of the cache" fails. -/
theorem cached_entry_bypasses_token_check :
    goTrimSpaceEmpty "" = true ∧
    transactionsHandler "GET" "" "" cache0 unmarshal0 marshal0 none fetch0
      = ⟨200, .payload "{}\n", [], none⟩ :=
  ⟨rfl, rfl⟩

/-- C5 (amended: the body is the stored bytes followed by one newline:
the handler re-encodes the decoded entry and `json.NewEncoder(w).Encode`
appends a newline, so for a canonically stored entry the body is
`stored ++ "\n"`, not byte-for-byte `stored`): on a cache hit the
provider is never contacted and nothing is written back. -/
theorem cache_hit_serves_stored_bytes_plus_newline
    (queryFilter queryToken stored : String)
    (cacheGet : String → Option String)
    (unmarshal : String → Option TransactionsResponse)
    (marshal : TransactionsResponse → String) (svcError : Option String)
    (fetch : ℕ → Except FetchError (List Transaction))
    (r : TransactionsResponse)
    (hc : cacheGet (getCacheKey (if queryFilter = "" then "all" else queryFilter))
      = some stored)
    (hu : unmarshal stored = some r)
    (hmr : marshal r = stored) :
    transactionsHandler "GET" queryFilter queryToken cacheGet unmarshal marshal
        svcError fetch
      = ⟨200, .payload (stored ++ "\n"), [], none⟩ := by
  unfold transactionsHandler
  rw [if_neg (show ¬("GET" = "OPTIONS") by decide),
    if_neg (show ¬("GET" ≠ "GET") by simp)]
  dsimp only
  simp only [hc, hu, hmr]

/-- Witness for C5's amended statement with the round-tripping pair. -/
theorem cache_hit_serves_stored_bytes_plus_newline_witness :
    transactionsHandler "GET" "" "tok" cache0 unmarshal0 marshal0 none fetch0
      = ⟨200, .payload ("{}" ++ "\n"), [], none⟩ :=
  cache_hit_serves_stored_bytes_plus_newline "" "tok" "{}" cache0 unmarshal0
    marshal0 none fetch0 r0 rfl rfl rfl

/-- C5 counterexample: the stored bytes are "{}" (a canonical encoding:
it decodes, and re-encoding gives the same bytes), yet the served body is
"{}\n" — not byte-for-byte equal to the stored bytes.  The provider is
still not contacted. -/
theorem cache_hit_body_differs_from_stored :
    cache0 "transactions:all" = some "{}" ∧
    unmarshal0 "{}" = some r0 ∧
    marshal0 r0 = "{}" ∧
    (transactionsHandler "GET" "" "tok" cache0 unmarshal0 marshal0 none
        fetch0).body = .payload ("{}" ++ "\n") ∧
    ("{}" ++ "\n") ≠ "{}" ∧
    (transactionsHandler "GET" "" "tok" cache0 unmarshal0 marshal0 none
        fetch0).fetchCalls = [] :=
  ⟨rfl, rfl, rfl, rfl, by decide, rfl⟩

/-- On a cache miss with a usable token, a filter that maps to `some d`
lookback days leads to exactly one provider fetch with `d`, whatever the
fetch and summary outcomes. -/
theorem handler_fetches_days (queryFilter queryToken : String)
    (cacheGet : String → Option String)
    (unmarshal : String → Option TransactionsResponse)
    (marshal : TransactionsResponse → String)
    (fetch : ℕ → Except FetchError (List Transaction)) (d : ℕ)
    (hmiss : ∀ k c, cacheGet k = some c → unmarshal c = none)
    (ht : goTrimSpaceEmpty queryToken = false)
    (hne : queryFilter ≠ "")
    (hd : (if queryFilter = "daily" then some 2
        else if queryFilter = "weekly" then some 14
        else if queryFilter = "monthly" then some 60
        else if queryFilter = "all" then some 90 else none) = some d) :
    (transactionsHandler "GET" queryFilter queryToken cacheGet unmarshal
      marshal none fetch).fetchCalls = [d] := by
  unfold transactionsHandler
  rw [if_neg (show ¬("GET" = "OPTIONS") by decide),
    if_neg (show ¬("GET" ≠ "GET") by simp)]
  dsimp only
  rw [if_neg hne]
  have hhit : (match cacheGet (getCacheKey queryFilter) with
      | some cached => unmarshal cached
      | none => none) = none := by
    rcases hc : cacheGet (getCacheKey queryFilter) with _ | c
    · rfl
    · exact hmiss _ c hc
  simp only [hhit]
  rw [if_neg (by simp [ht])]
  simp only [hd]
  rcases hf : fetch d with e | txns
  · rcases e with ⟨code, msg⟩ | ⟨msg⟩ <;> rfl
  · rcases hcs : calculateSummary txns queryFilter with e | s <;> simp [hcs]

/-- C8: on a GET with a non-blank token, no valid cache entry and a
working Gmail client, the filter maps to lookback days daily=2,
weekly=14, monthly=60, all=90 (each passed to exactly one provider
fetch), and every other non-empty filter value is answered
400 "Invalid filter" before any provider fetch (an absent filter
parameter defaults to "all"). -/
theorem filter_mapping_and_invalid_filter_400 (queryToken : String)
    (cacheGet : String → Option String)
    (unmarshal : String → Option TransactionsResponse)
    (marshal : TransactionsResponse → String)
    (fetch : ℕ → Except FetchError (List Transaction))
    (hmiss : ∀ k c, cacheGet k = some c → unmarshal c = none)
    (ht : goTrimSpaceEmpty queryToken = false) :
    (transactionsHandler "GET" "daily" queryToken cacheGet unmarshal marshal
      none fetch).fetchCalls = [2] ∧
    (transactionsHandler "GET" "weekly" queryToken cacheGet unmarshal marshal
      none fetch).fetchCalls = [14] ∧
    (transactionsHandler "GET" "monthly" queryToken cacheGet unmarshal marshal
      none fetch).fetchCalls = [60] ∧
    (transactionsHandler "GET" "all" queryToken cacheGet unmarshal marshal
      none fetch).fetchCalls = [90] ∧
    (∀ f, f ∉ (["daily", "weekly", "monthly", "all"] : List String) → f ≠ "" →
      transactionsHandler "GET" f queryToken cacheGet unmarshal marshal none
        fetch = ⟨400, .err "Invalid filter" 400, [], none⟩) := by
  refine ⟨handler_fetches_days _ _ _ _ _ _ _ hmiss ht (by decide) rfl,
    handler_fetches_days _ _ _ _ _ _ _ hmiss ht (by decide) rfl,
    handler_fetches_days _ _ _ _ _ _ _ hmiss ht (by decide) rfl,
    handler_fetches_days _ _ _ _ _ _ _ hmiss ht (by decide) rfl, ?_⟩
  intro f hf hfe
  simp only [List.mem_cons, List.not_mem_nil, or_false, not_or] at hf
  obtain ⟨hf1, hf2, hf3, hf4⟩ := hf
  unfold transactionsHandler
  rw [if_neg (show ¬("GET" = "OPTIONS") by decide),
    if_neg (show ¬("GET" ≠ "GET") by simp)]
  dsimp only
  rw [if_neg hfe]
  have hhit : (match cacheGet (getCacheKey f) with
      | some cached => unmarshal cached
      | none => none) = none := by
    rcases hc : cacheGet (getCacheKey f) with _ | c
    · rfl
    · exact hmiss _ c hc
  simp only [hhit]
  rw [if_neg (by simp [ht])]
  rw [if_neg hf1, if_neg hf2, if_neg hf3, if_neg hf4]

/-- Witness for C8 at a concrete empty cache, token "t", and the invalid
filter "unknown". -/
theorem filter_mapping_and_invalid_filter_400_witness :
    (transactionsHandler "GET" "daily" "t" (fun _ => none) unmarshal0 marshal0
      none fetch0).fetchCalls = [2] ∧
    (transactionsHandler "GET" "weekly" "t" (fun _ => none) unmarshal0 marshal0
      none fetch0).fetchCalls = [14] ∧
    (transactionsHandler "GET" "monthly" "t" (fun _ => none) unmarshal0
      marshal0 none fetch0).fetchCalls = [60] ∧
    (transactionsHandler "GET" "all" "t" (fun _ => none) unmarshal0 marshal0
      none fetch0).fetchCalls = [90] ∧
    transactionsHandler "GET" "unknown" "t" (fun _ => none) unmarshal0 marshal0
      none fetch0 = ⟨400, .err "Invalid filter" 400, [], none⟩ := by
  have h := filter_mapping_and_invalid_filter_400 "t" (fun _ => none)
    unmarshal0 marshal0 fetch0 (fun k c hc => by cases hc) rfl
  exact ⟨h.1, h.2.1, h.2.2.1, h.2.2.2.1,
    h.2.2.2.2 "unknown" (by decide) (by decide)⟩

end FunMon
